import Mathlib

/-!
Verification of the rolling-rate-limiter library (src/lib/index.js).

The development shallowly embeds the rate-limiter code in Lean:

* timestamps are integers (microseconds), as in the source all window
  arithmetic happens on microsecond integers;
* the pure decision routine calculateInfo is translated directly;
* the in-memory backend state for one identifier is the stored list of
  timestamps; getTimestamps is translated as a state-passing function
  whose clock reading is an explicit parameter;
* the Redis backend state for one identifier is the sorted-set content,
  a list of member/score pairs ordered by score; the four batched
  commands (zremrangebyscore, zadd, zrange WITHSCORES, expire) are
  modelled in order.  The uuid member values are modelled by natural
  numbers supplied by a counter, which is faithful because a v4 uuid is
  fresh on every call; expire only bounds the lifetime of abandoned keys
  and has no effect on any value computed here.

Both backends read the clock once per public call; the clock readings of
successive calls are nondecreasing and nonnegative, matching the
microsecond wall clock collaborator.
-/

namespace RollingRateLimiter

/-- Options record accepted by the RateLimiter constructor; minDifference
    is optional and defaults to 0.  Fields are in milliseconds. -/
structure RateLimiterOptions where
  interval : Int
  maxInInterval : Int
  minDifference : Option Int
deriving Repr, DecidableEq

/-- Validated configuration held by a constructed RateLimiter.  The
    interval and minDifference fields are in microseconds, as converted
    by the constructor. -/
structure Config where
  interval : Int
  maxInInterval : Nat
  minDifference : Int
deriving Repr, DecidableEq

/-- Verdict record returned by limitWithInfo and wouldLimitWithInfo. -/
structure RateLimitInfo where
  blocked : Bool
  blockedDueToCount : Bool
  blockedDueToMinDifference : Bool
  millisecondsUntilAllowed : Int
  actionsRemaining : Nat
deriving Repr, DecidableEq

/-- Conversion used by the constructor (exact multiplication). -/
def millisecondsToMicroseconds (milliseconds : Int) : Int :=
  1000 * milliseconds

/-- Conversion used for reported waits: Math.ceil(microseconds / 1000),
    i.e. the ceiling of the exact quotient, written with floor division. -/
def microsecondsToMilliseconds (microseconds : Int) : Int :=
  Int.fdiv (microseconds + 999) 1000

/-- Constructor of the abstract RateLimiter class.  The three assert
    calls run in order on the raw millisecond options, with an omitted
    minDifference defaulting to 0; on success the stored configuration
    is in microseconds. -/
def RateLimiter.construct (o : RateLimiterOptions) : Except String Config :=
  let minDifference := o.minDifference.getD 0
  if 0 < o.interval then
    if 0 < o.maxInInterval then
      if 0 ≤ minDifference then
        Except.ok
          ⟨millisecondsToMicroseconds o.interval, o.maxInInterval.toNat,
            millisecondsToMicroseconds minDifference⟩
      else Except.error "options.minDifference cannot be negative"
    else Except.error "Must pass a positive integer for options.maxInInterval"
  else Except.error "Must pass a positive integer for options.interval"

/-- RateLimiter.calculateInfo.  The last item of the list is the
    timestamp of the current action.  List.getD mirrors the source
    indexing: index numTimestamps - 2 is only read through the
    previousTimestamp != null guard (modelled as 2 <= numTimestamps),
    and Nat subtraction realises Math.max(0, numTimestamps - maxInInterval). -/
def calculateInfo (cfg : Config) (timestamps : List Int) (isWould : Bool) : RateLimitInfo :=
  let numTimestamps := timestamps.length
  let currentTimestamp := timestamps.getD (numTimestamps - 1) 0
  let previousTimestamp := timestamps.getD (numTimestamps - 2) 0
  let blockedDueToCount : Bool := decide (cfg.maxInInterval < numTimestamps)
  let blockedDueToMinDifference : Bool :=
    decide (2 ≤ numTimestamps) && decide (0 < cfg.minDifference) &&
      decide (currentTimestamp - previousTimestamp < cfg.minDifference)
  let blocked : Bool := blockedDueToCount || blockedDueToMinDifference
  let microsecondsUntilUnblocked : Int :=
    if cfg.maxInInterval ≤ numTimestamps then
      timestamps.getD (numTimestamps - cfg.maxInInterval) 0 - currentTimestamp + cfg.interval
    else 0
  let microsecondsUntilAllowed : Int := max cfg.minDifference microsecondsUntilUnblocked
  if isWould then
    ⟨blocked, blockedDueToCount, blockedDueToMinDifference,
      microsecondsToMilliseconds
        (timestamps.getD (numTimestamps - cfg.maxInInterval) 0 - currentTimestamp + cfg.interval),
      cfg.maxInInterval - numTimestamps⟩
  else
    ⟨blocked, blockedDueToCount, blockedDueToMinDifference,
      microsecondsToMilliseconds microsecondsUntilAllowed,
      cfg.maxInInterval - numTimestamps⟩

namespace InMemory

/-- InMemoryRateLimiter.getTimestamps for one identifier: stored is the
    current storage entry ([] when absent), now the clock reading of the
    call.  The returned list is also the new storage entry, exactly as
    the source assigns storage[id] = storedTimestamps and returns it. -/
def getTimestamps (cfg : Config) (stored : List Int) (now : Int)
    (addNewTimestamp : Bool) : List Int :=
  let clearBefore := now - cfg.interval
  let storedTimestamps := stored.filter (fun t => decide (clearBefore < t))
  if addNewTimestamp then storedTimestamps ++ [now] else storedTimestamps

/-- RateLimiter.limitWithInfo over the in-memory backend: verdict and
    new stored state. -/
def limitWithInfo (cfg : Config) (stored : List Int) (now : Int) :
    RateLimitInfo × List Int :=
  let timestamps := getTimestamps cfg stored now true
  (calculateInfo cfg timestamps false, timestamps)

/-- RateLimiter.wouldLimitWithInfo over the in-memory backend: the fresh
    current timestamp is appended locally to the snapshot, and the
    stored state is whatever getTimestamps persisted. -/
def wouldLimitWithInfo (cfg : Config) (stored : List Int) (now : Int) :
    RateLimitInfo × List Int :=
  let existingTimestamps := getTimestamps cfg stored now false
  (calculateInfo cfg (existingTimestamps ++ [now]) true, existingTimestamps)

/-- InMemoryRateLimiter.clear for one identifier. -/
def clear : List Int := []

/-- Stored state of one identifier after a sequence of limit calls at
    the given clock readings, starting from no state. -/
def limitStates (cfg : Config) (times : List Int) : List Int :=
  times.foldl (fun s t => (limitWithInfo cfg s t).2) []

end InMemory

namespace Redis

/-- Sorted-set content for one key: member/score pairs in score order.
    Members are the v4 uuid values; they are modelled by natural numbers
    handed out by a per-run counter, which matches the source because a
    fresh uuid is generated on every zadd and members only serve to keep
    same-score entries distinct. -/
abbrev ZSet := List (Nat × Int)

/-- ZREMRANGEBYSCORE key minScore maxScore: drop every member whose
    score lies in the closed range. -/
def zremrangebyscore (minScore maxScore : Int) (zset : ZSet) : ZSet :=
  zset.filter (fun q => !(decide (minScore ≤ q.2) && decide (q.2 ≤ maxScore)))

/-- ZADD key score member for a member not yet present: sorted insertion
    by score.  Among equal scores redis orders by member lexicographic
    order; only the score sequence is ever read back, and that sequence
    does not depend on where among its equals the new entry lands. -/
def zadd (member : Nat) (score : Int) : ZSet → ZSet
  | [] => [(member, score)]
  | q :: rest =>
    if score ≤ q.2 then (member, score) :: q :: rest
    else q :: zadd member score rest

/-- ZRANGE key 0 -1 WITHSCORES: the flat alternating member/score reply,
    members at even positions and scores at odd positions.  The member
    value at an even slot stands for the uuid string; it is cast to Int
    only to keep the reply homogeneous and is discarded unread by the
    extraction below, exactly as Number is never applied to the member
    strings in the source. -/
def zrangeWithScores : ZSet → List Int
  | [] => []
  | q :: rest => (q.1 : Int) :: q.2 :: zrangeWithScores rest

/-- RedisRateLimiter.extractTimestampsFromZRangeResult: keep the odd
    positions of the flat reply (the scores) and read them as numbers. -/
def extractTimestampsFromZRangeResult (zRangeResult : List Int) : List Int :=
  (zRangeResult.enum.filter (fun p => decide (p.1 % 2 = 1))).map Prod.snd

/-- RedisRateLimiter.getTimestamps for one identifier: the atomic batch
    zremrangebyscore, optional zadd, zrange WITHSCORES, expire.  The
    expire command only refreshes the key TTL and does not change the
    content read back, so it contributes nothing here.  Returns the
    extracted timestamps and the new sorted-set content. -/
def getTimestamps (cfg : Config) (zset : ZSet) (now : Int)
    (addNewTimestamp : Bool) (member : Nat) : List Int × ZSet :=
  let clearBefore := now - cfg.interval
  let afterRemove := zremrangebyscore 0 clearBefore zset
  let afterAdd := if addNewTimestamp then zadd member now afterRemove else afterRemove
  (extractTimestampsFromZRangeResult (zrangeWithScores afterAdd), afterAdd)

/-- RateLimiter.limitWithInfo over the Redis backend. -/
def limitWithInfo (cfg : Config) (zset : ZSet) (now : Int) (member : Nat) :
    RateLimitInfo × ZSet :=
  let r := getTimestamps cfg zset now true member
  (calculateInfo cfg r.1 false, r.2)

/-- RateLimiter.wouldLimitWithInfo over the Redis backend; no member is
    inserted, so the member argument of the batch is irrelevant. -/
def wouldLimitWithInfo (cfg : Config) (zset : ZSet) (now : Int) :
    RateLimitInfo × ZSet :=
  let r := getTimestamps cfg zset now false 0
  (calculateInfo cfg (r.1 ++ [now]) true, r.2)

/-- RedisRateLimiter.clear: DEL of the key. -/
def clear : ZSet := []

end Redis

/-- Public operations of the facade. -/
inductive Op where
  | limit
  | wouldLimit
  | limitWithInfo
  | wouldLimitWithInfo
  | clear
deriving Repr, DecidableEq

/-- Observable outcome of one public call. -/
inductive CallResult where
  | verdictBool (b : Bool)
  | verdictInfo (i : RateLimitInfo)
  | cleared
deriving Repr, DecidableEq

/-- One public call against the in-memory backend. -/
def InMemory.call (cfg : Config) (stored : List Int) (op : Op) (now : Int) :
    CallResult × List Int :=
  match op with
  | .limit =>
    let r := InMemory.limitWithInfo cfg stored now
    (.verdictBool r.1.blocked, r.2)
  | .wouldLimit =>
    let r := InMemory.wouldLimitWithInfo cfg stored now
    (.verdictBool r.1.blocked, r.2)
  | .limitWithInfo =>
    let r := InMemory.limitWithInfo cfg stored now
    (.verdictInfo r.1, r.2)
  | .wouldLimitWithInfo =>
    let r := InMemory.wouldLimitWithInfo cfg stored now
    (.verdictInfo r.1, r.2)
  | .clear => (.cleared, InMemory.clear)

/-- One public call against the Redis backend; member is the fresh uuid
    used if the call inserts. -/
def Redis.call (cfg : Config) (zset : Redis.ZSet) (op : Op) (now : Int)
    (member : Nat) : CallResult × Redis.ZSet :=
  match op with
  | .limit =>
    let r := Redis.limitWithInfo cfg zset now member
    (.verdictBool r.1.blocked, r.2)
  | .wouldLimit =>
    let r := Redis.wouldLimitWithInfo cfg zset now
    (.verdictBool r.1.blocked, r.2)
  | .limitWithInfo =>
    let r := Redis.limitWithInfo cfg zset now member
    (.verdictInfo r.1, r.2)
  | .wouldLimitWithInfo =>
    let r := Redis.wouldLimitWithInfo cfg zset now
    (.verdictInfo r.1, r.2)
  | .clear => (.cleared, Redis.clear)

/-- Outcomes of a sequence of public calls at the given clock readings
    against the in-memory backend. -/
def InMemory.run (cfg : Config) : List (Op × Int) → List Int → List CallResult
  | [], _ => []
  | (op, t) :: rest, stored =>
    let r := InMemory.call cfg stored op t
    r.1 :: InMemory.run cfg rest r.2

/-- Outcomes of the same call sequence against the Redis backend; the
    counter supplies a fresh member value per call. -/
def Redis.run (cfg : Config) :
    List (Op × Int) → Redis.ZSet → Nat → List CallResult
  | [], _, _ => []
  | (op, t) :: rest, zset, ctr =>
    let r := Redis.call cfg zset op t ctr
    r.1 :: Redis.run cfg rest r.2 (ctr + 1)

/-! ### Helper lemmas -/

theorem microsecondsToMilliseconds_bounds (x : Int) :
    x ≤ 1000 * microsecondsToMilliseconds x ∧
      1000 * microsecondsToMilliseconds x < x + 1000 := by
  have h1 : (1000 : Int) * Int.fdiv (x + 999) 1000 + Int.fmod (x + 999) 1000 = x + 999 :=
    Int.fdiv_add_fmod (x + 999) 1000
  have h2 : 0 ≤ Int.fmod (x + 999) 1000 := Int.fmod_nonneg' (x + 999) (by omega)
  have h3 : Int.fmod (x + 999) 1000 < 1000 := Int.fmod_lt_of_pos (x + 999) (by omega)
  unfold microsecondsToMilliseconds
  omega

theorem microsecondsToMilliseconds_nonneg {x : Int} (hx : 0 ≤ x) :
    0 ≤ microsecondsToMilliseconds x :=
  Int.fdiv_nonneg (by omega) (by omega)

theorem getLast_eq_getD (l : List Int) (h : l ≠ []) :
    l.getLast h = l.getD (l.length - 1) 0 := by
  rw [List.getLast_eq_getElem, List.getD_eq_getElem]

theorem getTimestamps_false (cfg : Config) (stored : List Int) (now : Int) :
    InMemory.getTimestamps cfg stored now false =
      stored.filter (fun x => decide (now - cfg.interval < x)) := rfl

theorem getTimestamps_true (cfg : Config) (stored : List Int) (now : Int) :
    InMemory.getTimestamps cfg stored now true =
      stored.filter (fun x => decide (now - cfg.interval < x)) ++ [now] := rfl

theorem calculateInfo_blockedDueToCount (cfg : Config) (ts : List Int) (w : Bool) :
    (calculateInfo cfg ts w).blockedDueToCount = decide (cfg.maxInInterval < ts.length) := by
  cases w <;> simp [calculateInfo]

theorem calculateInfo_blockedDueToMinDifference (cfg : Config) (ts : List Int) (w : Bool) :
    (calculateInfo cfg ts w).blockedDueToMinDifference =
      (decide (2 ≤ ts.length) && decide (0 < cfg.minDifference) &&
        decide (ts.getD (ts.length - 1) 0 - ts.getD (ts.length - 2) 0 < cfg.minDifference)) := by
  cases w <;> simp [calculateInfo]

theorem calculateInfo_blocked (cfg : Config) (ts : List Int) (w : Bool) :
    (calculateInfo cfg ts w).blocked =
      ((calculateInfo cfg ts w).blockedDueToCount ||
        (calculateInfo cfg ts w).blockedDueToMinDifference) := by
  cases w <;> simp [calculateInfo]

theorem calculateInfo_ms_committed (cfg : Config) (ts : List Int) :
    (calculateInfo cfg ts false).millisecondsUntilAllowed =
      microsecondsToMilliseconds
        (max cfg.minDifference
          (if cfg.maxInInterval ≤ ts.length then
            ts.getD (ts.length - cfg.maxInInterval) 0 - ts.getD (ts.length - 1) 0 + cfg.interval
          else 0)) := by
  simp [calculateInfo]

theorem calculateInfo_ms_speculative (cfg : Config) (ts : List Int) :
    (calculateInfo cfg ts true).millisecondsUntilAllowed =
      microsecondsToMilliseconds
        (ts.getD (ts.length - cfg.maxInInterval) 0 - ts.getD (ts.length - 1) 0 + cfg.interval) := by
  simp [calculateInfo]

theorem calculateInfo_actionsRemaining (cfg : Config) (ts : List Int) (w : Bool) :
    (calculateInfo cfg ts w).actionsRemaining = cfg.maxInInterval - ts.length := by
  cases w <;> simp [calculateInfo]

/-! ### Claim C2: committed-mode wait -/

/-- C2.  In committed mode, on a nonempty timestamp list whose last
    element is the current action's timestamp: below the limit the wait
    comes purely from minDifference (0 when minDifference is 0); with a
    full window it is max(minDifference, window wait for the oldest
    counting timestamp); and the reported milliseconds are the
    microseconds rounded up, never down, to the next whole millisecond. -/
theorem committed_wait_formula (cfg : Config) (hD : 0 ≤ cfg.minDifference)
    (ts : List Int) (hne : ts ≠ []) :
    (ts.length < cfg.maxInInterval →
      (calculateInfo cfg ts false).millisecondsUntilAllowed =
        microsecondsToMilliseconds cfg.minDifference)
    ∧ (cfg.minDifference = 0 → ts.length < cfg.maxInInterval →
      (calculateInfo cfg ts false).millisecondsUntilAllowed = 0)
    ∧ (cfg.maxInInterval ≤ ts.length →
      (calculateInfo cfg ts false).millisecondsUntilAllowed =
        microsecondsToMilliseconds
          (max cfg.minDifference
            (ts.getD (ts.length - cfg.maxInInterval) 0 - ts.getLast hne + cfg.interval)))
    ∧ (∀ x : Int, x ≤ 1000 * microsecondsToMilliseconds x ∧
        1000 * microsecondsToMilliseconds x < x + 1000) := by
  refine ⟨?_, ?_, ?_, microsecondsToMilliseconds_bounds⟩
  · intro h
    rw [calculateInfo_ms_committed, if_neg (by omega), max_eq_left hD]
  · intro h0 h
    rw [calculateInfo_ms_committed, if_neg (by omega), max_eq_left hD, h0]
    decide
  · intro h
    rw [calculateInfo_ms_committed, if_pos h, getLast_eq_getD]

/-- C2 witness: interval 10 ms, maxInInterval 3, minDifference 2 ms, the
    window-full reading at t = 8 ms from the repository test trace. -/
theorem committed_wait_formula_witness :
    (calculateInfo ⟨10000, 3, 2000⟩ [0, 4000, 5000, 8000] false).millisecondsUntilAllowed =
      microsecondsToMilliseconds
        (max 2000 (([0, 4000, 5000, 8000] : List Int).getD 1 0 - 8000 + 10000)) := by
  have h := (committed_wait_formula ⟨10000, 3, 2000⟩ (by decide)
    [0, 4000, 5000, 8000] (by decide)).2.2.1 (by decide)
  simpa using h

/-! ### Claim C3: the min-difference guard (corrected) -/

/-- C3 counterexample.  The claim asserts that with minDifference > 0 a
    candidate timestamp that precedes the previous one never triggers the
    min-difference check.  In the code the check is
    current - previous < minDifference, which a negative difference
    satisfies: with minDifference = 2000 microseconds and timestamps
    [10000, 4000] the verdict has blockedDueToMinDifference = true, not
    false as claimed. -/
theorem min_difference_negative_counterexample :
    (calculateInfo ⟨10000, 3, 2000⟩ [10000, 4000] true).blockedDueToMinDifference = true := by
  decide

/-- C3 amended.  blockedDueToMinDifference is true exactly when a
    previous timestamp exists, minDifference is positive, and
    current - previous < minDifference — including negative differences,
    which trigger the check; only minDifference = 0 skips it entirely. -/
theorem min_difference_characterisation (cfg : Config) (ts : List Int) (w : Bool) :
    ((calculateInfo cfg ts w).blockedDueToMinDifference = true ↔
      2 ≤ ts.length ∧ 0 < cfg.minDifference ∧
        ts.getD (ts.length - 1) 0 - ts.getD (ts.length - 2) 0 < cfg.minDifference)
    ∧ (cfg.minDifference = 0 →
        (calculateInfo cfg ts w).blockedDueToMinDifference = false) := by
  constructor
  · rw [calculateInfo_blockedDueToMinDifference]
    simp [and_assoc]
  · intro h0
    rw [calculateInfo_blockedDueToMinDifference, h0]
    simp

/-- C3 amended witness: minDifference 0 never triggers the check. -/
theorem min_difference_characterisation_witness :
    (calculateInfo ⟨10000, 3, 0⟩ [0, 1000] false).blockedDueToMinDifference = false :=
  (min_difference_characterisation ⟨10000, 3, 0⟩ [0, 1000] false).2 rfl

/-! ### Claim C4: speculative-mode wait -/

/-- C4.  In speculative mode the reported wait is always the raw
    window-based value timestamp(max(0, count - maxInInterval)) -
    current + interval rounded up to whole milliseconds — whether or not
    the window is full, with no max against minDifference and no zero
    floor (Nat subtraction on the index realises max(0, ...)). -/
theorem speculative_wait_formula (cfg : Config) (ts : List Int) (hne : ts ≠ []) :
    (calculateInfo cfg ts true).millisecondsUntilAllowed =
      microsecondsToMilliseconds
        (ts.getD (ts.length - cfg.maxInInterval) 0 - ts.getLast hne + cfg.interval)
    ∧ (∀ x : Int, x ≤ 1000 * microsecondsToMilliseconds x ∧
        1000 * microsecondsToMilliseconds x < x + 1000) := by
  refine ⟨?_, microsecondsToMilliseconds_bounds⟩
  rw [calculateInfo_ms_speculative, getLast_eq_getD]

/-- C4 witness: the window-not-full speculative reading at t = 17 ms of
    the repository test trace still reports the raw window wait. -/
theorem speculative_wait_formula_witness :
    (calculateInfo ⟨10000, 3, 0⟩ [8000, 17000] true).millisecondsUntilAllowed =
      microsecondsToMilliseconds
        (([8000, 17000] : List Int).getD 0 0 - 17000 + 10000) := by
  have h := (speculative_wait_formula ⟨10000, 3, 0⟩ [8000, 17000] (by decide)).1
  simpa using h

/-! ### Claim C8: constructor validation -/

/-- C8.  Construction succeeds exactly when interval > 0,
    maxInInterval > 0 and minDifference >= 0, with an omitted
    minDifference defaulting to 0 and accepted; and a successfully
    constructed configuration satisfies the invariants every later call
    relies on (all operations in this development are total functions of
    a Config, so no later call can fail for configuration reasons). -/
theorem construct_validation (o : RateLimiterOptions) :
    ((∃ cfg, RateLimiter.construct o = Except.ok cfg) ↔
      0 < o.interval ∧ 0 < o.maxInInterval ∧ 0 ≤ o.minDifference.getD 0)
    ∧ (o.minDifference = none → 0 < o.interval → 0 < o.maxInInterval →
        RateLimiter.construct o =
          Except.ok ⟨millisecondsToMicroseconds o.interval, o.maxInInterval.toNat, 0⟩)
    ∧ (∀ cfg, RateLimiter.construct o = Except.ok cfg →
        0 < cfg.interval ∧ 0 < cfg.maxInInterval ∧ 0 ≤ cfg.minDifference) := by
  simp only [RateLimiter.construct]
  refine ⟨⟨?_, ?_⟩, ?_, ?_⟩
  · rintro ⟨cfg, hcfg⟩
    by_cases h1 : 0 < o.interval
    · by_cases h2 : 0 < o.maxInInterval
      · by_cases h3 : 0 ≤ o.minDifference.getD 0
        · exact ⟨h1, h2, h3⟩
        · rw [if_pos h1, if_pos h2, if_neg h3] at hcfg
          cases hcfg
      · rw [if_pos h1, if_neg h2] at hcfg
        cases hcfg
    · rw [if_neg h1] at hcfg
      cases hcfg
  · rintro ⟨h1, h2, h3⟩
    rw [if_pos h1, if_pos h2, if_pos h3]
    exact ⟨_, rfl⟩
  · intro hnone h1 h2
    rw [hnone]
    rw [if_pos h1, if_pos h2, if_pos (by decide)]
    rfl
  · intro cfg hcfg
    by_cases h1 : 0 < o.interval
    · by_cases h2 : 0 < o.maxInInterval
      · by_cases h3 : 0 ≤ o.minDifference.getD 0
        · rw [if_pos h1, if_pos h2, if_pos h3] at hcfg
          cases hcfg
          unfold millisecondsToMicroseconds
          refine ⟨?_, ?_, ?_⟩ <;> dsimp only <;> omega
        · rw [if_pos h1, if_pos h2, if_neg h3] at hcfg
          cases hcfg
      · rw [if_pos h1, if_neg h2] at hcfg
        cases hcfg
    · rw [if_neg h1] at hcfg
      cases hcfg

/-- C8 witness: a valid options record with minDifference omitted. -/
theorem construct_validation_witness :
    RateLimiter.construct ⟨10, 5, none⟩ = Except.ok ⟨10000, 5, 0⟩ :=
  (construct_validation ⟨10, 5, none⟩).2.1 rfl (by decide) (by decide)

/-! ### Claim C9: verdicts are nonnegative -/

theorem committed_ms_nonneg (cfg : Config) (hD : 0 ≤ cfg.minDifference)
    (ts : List Int) :
    0 ≤ (calculateInfo cfg ts false).millisecondsUntilAllowed := by
  rw [calculateInfo_ms_committed]
  exact microsecondsToMilliseconds_nonneg (le_trans hD (le_max_left _ _))

theorem window_list_last (stored : List Int) (now : Int) :
    ((stored ++ [now]).getD ((stored ++ [now]).length - 1) 0) = now := by
  rw [← getLast_eq_getD (stored ++ [now]) (by simp)]
  exact List.getLast_concat stored

theorem speculative_ms_nonneg (cfg : Config) (hI : 0 < cfg.interval)
    (hM : 0 < cfg.maxInInterval) (stored : List Int) (now : Int) :
    0 ≤ (InMemory.wouldLimitWithInfo cfg stored now).1.millisecondsUntilAllowed := by
  have hfst : (InMemory.wouldLimitWithInfo cfg stored now).1 =
      calculateInfo cfg
        (stored.filter (fun x => decide (now - cfg.interval < x)) ++ [now]) true := rfl
  set f := stored.filter (fun x => decide (now - cfg.interval < x)) with hf
  rw [hfst, calculateInfo_ms_speculative, window_list_last]
  have hlen : 0 < (f ++ [now]).length := by simp
  have hidx : (f ++ [now]).length - cfg.maxInInterval < (f ++ [now]).length := by omega
  have hmem : (f ++ [now]).getD ((f ++ [now]).length - cfg.maxInInterval) 0 ∈ f ++ [now] := by
    rw [List.getD_eq_getElem _ _ hidx]
    exact List.getElem_mem hidx
  have hwin : ∀ x ∈ f ++ [now], now - cfg.interval < x := by
    intro x hx
    rcases List.mem_append.mp hx with hx | hx
    · exact of_decide_eq_true (List.mem_filter.mp hx).2
    · rcases List.mem_singleton.mp hx with rfl
      omega
  have := hwin _ hmem
  exact microsecondsToMilliseconds_nonneg (by omega)

/-- C9.  Every verdict of limitWithInfo or wouldLimitWithInfo has
    millisecondsUntilAllowed >= 0 and actionsRemaining >= 0: in
    committed mode for any timestamp list, and in speculative mode for
    the list the call builds from any stored state, because every
    surviving timestamp is inside the window just pruned. -/
theorem verdict_nonnegative (cfg : Config) (hI : 0 < cfg.interval)
    (hM : 0 < cfg.maxInInterval) (hD : 0 ≤ cfg.minDifference)
    (ts stored : List Int) (now : Int) :
    0 ≤ (calculateInfo cfg ts false).millisecondsUntilAllowed
    ∧ 0 ≤ (InMemory.limitWithInfo cfg stored now).1.millisecondsUntilAllowed
    ∧ 0 ≤ (InMemory.wouldLimitWithInfo cfg stored now).1.millisecondsUntilAllowed
    ∧ 0 ≤ ((calculateInfo cfg ts false).actionsRemaining : Int)
    ∧ 0 ≤ ((calculateInfo cfg ts true).actionsRemaining : Int) := by
  refine ⟨committed_ms_nonneg cfg hD ts, committed_ms_nonneg cfg hD _,
    speculative_ms_nonneg cfg hI hM stored now, ?_, ?_⟩ <;> positivity

/-- C9 witness at the blocked reading t = 8 ms of the test trace. -/
theorem verdict_nonnegative_witness :
    0 ≤ (InMemory.limitWithInfo ⟨10000, 3, 0⟩ [0, 4000, 5000] 8000).1.millisecondsUntilAllowed :=
  (verdict_nonnegative ⟨10000, 3, 0⟩ (by decide) (by decide) (by decide)
    [] [0, 4000, 5000] 8000).2.1

/-! ### Claim C10: in-memory store invariant -/

/-- C10.  After getTimestamps under a nondecreasing clock the persisted
    list is ascending, every element is strictly inside the trailing
    window of that call's clock reading, and with addNewTimestamp the
    last element is that reading. -/
theorem memory_state_invariant (cfg : Config) (hI : 0 < cfg.interval)
    (stored : List Int) (hs : stored.Pairwise (· ≤ ·)) (now : Int)
    (hb : ∀ x ∈ stored, x ≤ now) (addNew : Bool) :
    (InMemory.getTimestamps cfg stored now addNew).Pairwise (· ≤ ·)
    ∧ (∀ x ∈ InMemory.getTimestamps cfg stored now addNew, now - cfg.interval < x)
    ∧ (addNew = true →
        (InMemory.getTimestamps cfg stored now addNew).getLast? = some now) := by
  cases addNew
  · rw [getTimestamps_false]
    refine ⟨hs.filter _, ?_, by simp⟩
    intro x hx
    exact of_decide_eq_true (List.mem_filter.mp hx).2
  · rw [getTimestamps_true]
    refine ⟨?_, ?_, fun _ => List.getLast?_concat _⟩
    · rw [List.pairwise_append]
      refine ⟨hs.filter _, List.pairwise_singleton _ _, ?_⟩
      intro x hx y hy
      rcases List.mem_singleton.mp hy with rfl
      exact hb x (List.mem_filter.mp hx).1
    · intro x hx
      rcases List.mem_append.mp hx with hx | hx
      · exact of_decide_eq_true (List.mem_filter.mp hx).2
      · rcases List.mem_singleton.mp hx with rfl
        omega

/-- C10 witness: one stored timestamp, a later reading, addNew set. -/
theorem memory_state_invariant_witness :
    (InMemory.getTimestamps ⟨10000, 2, 0⟩ [5000] 6000 true).getLast? = some 6000 :=
  (memory_state_invariant ⟨10000, 2, 0⟩ (by decide) [5000] (by decide) 6000
    (by decide) true).2.2 rfl

/-! ### Claim C5: wouldLimit has no observable effect -/

theorem filter_window_twice (cfg : Config) (stored : List Int) {t t' : Int}
    (h : t ≤ t') :
    (stored.filter (fun x => decide (t - cfg.interval < x))).filter
        (fun x => decide (t' - cfg.interval < x))
      = stored.filter (fun x => decide (t' - cfg.interval < x)) := by
  rw [List.filter_filter]
  refine List.filter_congr ?_
  intro a _
  by_cases ha : t' - cfg.interval < a
  · have hb : t - cfg.interval < a := by omega
    simp [ha, hb]
  · simp [ha]

/-- C5.  wouldLimitWithInfo is observationally pure: repeating it at the
    same clock reading returns the same verdict and leaves the stored
    state it produced unchanged, and any later call (limit or wouldLimit
    flavour alike) reads exactly the timestamp list it would have read
    had the wouldLimitWithInfo never happened. -/
theorem would_limit_stateless (cfg : Config) (stored : List Int) (t t' : Int)
    (h : t ≤ t') :
    InMemory.wouldLimitWithInfo cfg (InMemory.wouldLimitWithInfo cfg stored t).2 t
      = InMemory.wouldLimitWithInfo cfg stored t
    ∧ ∀ b : Bool,
        InMemory.getTimestamps cfg (InMemory.wouldLimitWithInfo cfg stored t).2 t' b
          = InMemory.getTimestamps cfg stored t' b := by
  have hsnd : (InMemory.wouldLimitWithInfo cfg stored t).2 =
      stored.filter (fun x => decide (t - cfg.interval < x)) := rfl
  constructor
  · show (let e := InMemory.getTimestamps cfg (InMemory.wouldLimitWithInfo cfg stored t).2 t false
      (calculateInfo cfg (e ++ [t]) true, e)) = _
    have he : InMemory.getTimestamps cfg (InMemory.wouldLimitWithInfo cfg stored t).2 t false
        = (InMemory.wouldLimitWithInfo cfg stored t).2 := by
      rw [hsnd]
      exact filter_window_twice cfg stored le_rfl
    rw [he]
    rfl
  · intro b
    rw [hsnd]
    cases b
    · rw [getTimestamps_false, getTimestamps_false,
        filter_window_twice cfg stored h]
    · rw [getTimestamps_true, getTimestamps_true,
        filter_window_twice cfg stored h]

/-- C5 witness: a stale and a fresh timestamp, probed one reading later. -/
theorem would_limit_stateless_witness :
    InMemory.wouldLimitWithInfo ⟨10000, 2, 0⟩
        (InMemory.wouldLimitWithInfo ⟨10000, 2, 0⟩ [-20000, 3000] 5000).2 5000
      = InMemory.wouldLimitWithInfo ⟨10000, 2, 0⟩ [-20000, 3000] 5000 :=
  (would_limit_stateless ⟨10000, 2, 0⟩ [-20000, 3000] 5000 7000 (by decide)).1

/-! ### Claim C1: blocked actions still count -/

theorem limitWithInfo_fst (cfg : Config) (s : List Int) (t : Int) :
    (InMemory.limitWithInfo cfg s t).1 =
      calculateInfo cfg (s.filter (fun x => decide (t - cfg.interval < x)) ++ [t]) false := rfl

theorem limitWithInfo_snd (cfg : Config) (s : List Int) (t : Int) :
    (InMemory.limitWithInfo cfg s t).2 =
      s.filter (fun x => decide (t - cfg.interval < x)) ++ [t] := rfl

theorem limitStates_nil (cfg : Config) : InMemory.limitStates cfg [] = [] := rfl

theorem limitStates_concat (cfg : Config) (l : List Int) (t : Int) :
    InMemory.limitStates cfg (l ++ [t]) =
      (InMemory.limitWithInfo cfg (InMemory.limitStates cfg l) t).2 := by
  unfold InMemory.limitStates
  rw [List.foldl_append]
  rfl

/-- Running limit at nondecreasing clock readings keeps, as the stored
    state, exactly the attempted timestamps (blocked or not) that are
    still inside the window of the most recent reading. -/
theorem limitStates_eq_filter (cfg : Config) (hI : 0 < cfg.interval) (l : List Int) :
    ∀ t : Int, l.Pairwise (· ≤ ·) → (∀ x ∈ l, x ≤ t) →
      InMemory.limitStates cfg (l ++ [t]) =
        (l ++ [t]).filter (fun x => decide (t - cfg.interval < x)) := by
  induction l using List.reverseRecOn with
  | nil =>
    intro t _ _
    rw [limitStates_concat, limitStates_nil, limitWithInfo_snd]
    have hpt : decide (t - cfg.interval < t) = true := decide_eq_true (by omega)
    simp [List.filter_singleton, hpt, hI]
  | append_singleton m u IH =>
    intro t hpw hb
    have hut : u ≤ t := hb u (by simp)
    have hpwm : m.Pairwise (· ≤ ·) := (List.pairwise_append.mp hpw).1
    have hbm : ∀ x ∈ m, x ≤ u := fun x hx =>
      (List.pairwise_append.mp hpw).2.2 x hx u (by simp)
    rw [limitStates_concat, IH u hpwm hbm, limitWithInfo_snd,
      filter_window_twice cfg (m ++ [u]) hut, List.filter_append (m ++ [u])]
    have hpt : decide (t - cfg.interval < t) = true := decide_eq_true (by omega)
    simp [List.filter_singleton, hpt, hI]

/-- C1.  Under a nondecreasing clock, after the k-th limit call the
    store holds exactly the attempts still inside the trailing window of
    that call's reading — the attempt is durably recorded even when the
    verdict is blocked — and the k-th verdict is blocked due to count
    precisely when more than maxInInterval recorded attempts (blocked or
    not) lie inside the trailing window; with no minDifference this is
    exactly the blocked verdict, so blocking persists just until the
    windowed count of recorded attempts drops back under the limit. -/
theorem limit_records_and_blocks (cfg : Config) (hI : 0 < cfg.interval)
    (times : List Int) (hs : times.Pairwise (· ≤ ·)) (k : Nat)
    (hk : k < times.length) :
    InMemory.limitStates cfg (times.take (k + 1)) =
        (times.take (k + 1)).filter
          (fun x => decide (times.getD k 0 - cfg.interval < x))
    ∧ times.getD k 0 ∈ InMemory.limitStates cfg (times.take (k + 1))
    ∧ ((InMemory.limitWithInfo cfg (InMemory.limitStates cfg (times.take k))
          (times.getD k 0)).1.blockedDueToCount
        = decide (cfg.maxInInterval <
            (times.take (k + 1)).countP
              (fun x => decide (times.getD k 0 - cfg.interval < x))))
    ∧ (cfg.minDifference = 0 →
        (InMemory.limitWithInfo cfg (InMemory.limitStates cfg (times.take k))
          (times.getD k 0)).1.blocked
        = decide (cfg.maxInInterval <
            (times.take (k + 1)).countP
              (fun x => decide (times.getD k 0 - cfg.interval < x)))) := by
  have ht : times.getD k 0 = times[k] := List.getD_eq_getElem times 0 hk
  have htake : times.take (k + 1) = times.take k ++ [times.getD k 0] := by
    rw [List.take_succ, List.getElem?_eq_getElem hk, ht]
    rfl
  have hpwk : (times.take k).Pairwise (· ≤ ·) :=
    hs.sublist (List.take_sublist k times)
  have hbk : ∀ x ∈ times.take k, x ≤ times.getD k 0 := by
    intro x hx
    obtain ⟨i, hm, hgx⟩ := List.mem_take_iff_getElem.mp hx
    rw [ht, ← hgx]
    exact List.pairwise_iff_getElem.mp hs i k (by omega) hk (by omega)
  have hmain : InMemory.limitStates cfg (times.take (k + 1)) =
      (times.take (k + 1)).filter
        (fun x => decide (times.getD k 0 - cfg.interval < x)) := by
    rw [htake]
    exact limitStates_eq_filter cfg hI (times.take k) (times.getD k 0) hpwk hbk
  have hmem : times.getD k 0 ∈ InMemory.limitStates cfg (times.take (k + 1)) := by
    rw [hmain]
    refine List.mem_filter.mpr ⟨?_, decide_eq_true (by omega)⟩
    rw [htake]
    exact List.mem_append_right _ (List.mem_singleton.mpr rfl)
  have hlist : (InMemory.limitStates cfg (times.take k)).filter
        (fun x => decide (times.getD k 0 - cfg.interval < x)) ++ [times.getD k 0]
      = (times.take (k + 1)).filter
          (fun x => decide (times.getD k 0 - cfg.interval < x)) := by
    rw [← limitWithInfo_snd, ← limitStates_concat, ← htake, hmain]
  have hcount : (InMemory.limitWithInfo cfg (InMemory.limitStates cfg (times.take k))
        (times.getD k 0)).1.blockedDueToCount
      = decide (cfg.maxInInterval <
          (times.take (k + 1)).countP
            (fun x => decide (times.getD k 0 - cfg.interval < x))) := by
    rw [limitWithInfo_fst, calculateInfo_blockedDueToCount, hlist,
      List.countP_eq_length_filter]
  refine ⟨hmain, hmem, hcount, ?_⟩
  intro h0
  rw [limitWithInfo_fst, calculateInfo_blocked,
    calculateInfo_blockedDueToMinDifference, h0]
  rw [limitWithInfo_fst] at hcount
  rw [hcount]
  simp

/-- C1 witness: three calls one millisecond apart with maxInInterval 2;
    the third call's attempt is durably recorded in the store. -/
theorem limit_records_and_blocks_witness :
    (2000 : Int) ∈ InMemory.limitStates ⟨10000, 2, 0⟩ ([0, 1000, 2000].take 3) := by
  have h := (limit_records_and_blocks ⟨10000, 2, 0⟩ (by decide) [0, 1000, 2000]
    (by decide) 2 (by decide)).2.1
  simpa using h

/-! ### Claim C7: boundary-exact timestamps are expired -/

theorem redis_getTimestamps_fst (cfg : Config) (z : Redis.ZSet) (now : Int)
    (b : Bool) (m : Nat) :
    (Redis.getTimestamps cfg z now b m).1 =
      Redis.extractTimestampsFromZRangeResult
        (Redis.zrangeWithScores (Redis.getTimestamps cfg z now b m).2) := by
  cases b <;> rfl

theorem redis_getTimestamps_snd_false (cfg : Config) (z : Redis.ZSet) (now : Int)
    (m : Nat) :
    (Redis.getTimestamps cfg z now false m).2 =
      Redis.zremrangebyscore 0 (now - cfg.interval) z := rfl

theorem redis_getTimestamps_snd_true (cfg : Config) (z : Redis.ZSet) (now : Int)
    (m : Nat) :
    (Redis.getTimestamps cfg z now true m).2 =
      Redis.zadd m now (Redis.zremrangebyscore 0 (now - cfg.interval) z) := rfl

theorem mem_zadd (m : Nat) (t : Int) (x : Nat × Int) (l : Redis.ZSet) :
    x ∈ Redis.zadd m t l ↔ x = (m, t) ∨ x ∈ l := by
  induction l with
  | nil => simp [Redis.zadd]
  | cons q rest IH =>
    simp only [Redis.zadd]
    by_cases h : t ≤ q.2
    · rw [if_pos h]
      simp [List.mem_cons]
    · rw [if_neg h]
      simp only [List.mem_cons, IH]
      tauto

/-- C7.  On every read, a timestamp exactly at the boundary now -
    interval is expired: the in-memory store keeps only entries strictly
    inside the window, and the Redis batch removes every member whose
    score lies in [0, now - interval], boundary included, so no
    surviving score equals the boundary when the boundary is
    nonnegative. -/
theorem boundary_timestamp_expired (cfg : Config) (hI : 0 < cfg.interval)
    (stored : List Int) (z : Redis.ZSet) (now : Int) (b : Bool) (m : Nat) :
    (∀ x ∈ InMemory.getTimestamps cfg stored now b, now - cfg.interval < x)
    ∧ (now - cfg.interval) ∉ InMemory.getTimestamps cfg stored now b
    ∧ (∀ q ∈ z, 0 ≤ q.2 → q.2 ≤ now - cfg.interval →
        q ∉ (Redis.getTimestamps cfg z now b m).2)
    ∧ (0 ≤ now - cfg.interval →
        (now - cfg.interval) ∉ (Redis.getTimestamps cfg z now b m).2.map Prod.snd) := by
  have hmem : ∀ x ∈ InMemory.getTimestamps cfg stored now b, now - cfg.interval < x := by
    cases b
    · rw [getTimestamps_false]
      intro x hx
      exact of_decide_eq_true (List.mem_filter.mp hx).2
    · rw [getTimestamps_true]
      intro x hx
      rcases List.mem_append.mp hx with hx | hx
      · exact of_decide_eq_true (List.mem_filter.mp hx).2
      · rcases List.mem_singleton.mp hx with rfl
        omega
  have hz : ∀ q ∈ (Redis.getTimestamps cfg z now b m).2,
      ¬(0 ≤ q.2 ∧ q.2 ≤ now - cfg.interval) := by
    cases b
    · rw [redis_getTimestamps_snd_false]
      intro q hq
      have := (List.mem_filter.mp hq).2
      simp only [Bool.not_eq_eq_eq_not, Bool.not_true, Bool.and_eq_false_imp,
        decide_eq_true_eq, decide_eq_false_iff_not] at this
      tauto
    · rw [redis_getTimestamps_snd_true]
      intro q hq
      rcases (mem_zadd m now q _).mp hq with rfl | hq
      · dsimp only
        omega
      · have := (List.mem_filter.mp hq).2
        simp only [Bool.not_eq_eq_eq_not, Bool.not_true, Bool.and_eq_false_imp,
          decide_eq_true_eq, decide_eq_false_iff_not] at this
        tauto
  refine ⟨hmem, ?_, ?_, ?_⟩
  · intro hx
    exact absurd (hmem _ hx) (by omega)
  · intro q hq h0 hcb hmem2
    exact hz q hmem2 ⟨h0, hcb⟩
  · intro hcb hx
    obtain ⟨q, hq, hq2⟩ := List.mem_map.mp hx
    exact hz q hq (by omega)

/-- C7 witness: a stored boundary-exact timestamp does not survive the
    in-memory read. -/
theorem boundary_timestamp_expired_witness :
    ((16000 : Int) - 10000) ∉
      InMemory.getTimestamps ⟨10000, 2, 0⟩ [6000, 7000] 16000 true :=
  (boundary_timestamp_expired ⟨10000, 2, 0⟩ (by decide) [6000, 7000]
    [(0, 6000)] 16000 true 5).2.1

/-! ### Claim C6: backend equivalence -/

theorem zrange_extract_aux (z : Redis.ZSet) :
    ∀ n : Nat, n % 2 = 0 →
      (((Redis.zrangeWithScores z).enumFrom n).filter
          (fun p => decide (p.1 % 2 = 1))).map Prod.snd
        = z.map Prod.snd := by
  induction z with
  | nil =>
    intro n _
    simp [Redis.zrangeWithScores]
  | cons q rest IH =>
    intro n hn
    have h1 : ¬(n % 2 = 1) := by omega
    have h2 : (n + 1) % 2 = 1 := by omega
    simp only [Redis.zrangeWithScores, List.enumFrom_cons, List.filter_cons]
    simp [h1, h2, IH (n + 2) (by omega)]

theorem extract_zrange (z : Redis.ZSet) :
    Redis.extractTimestampsFromZRangeResult (Redis.zrangeWithScores z)
      = z.map Prod.snd := by
  unfold Redis.extractTimestampsFromZRangeResult
  have h := zrange_extract_aux z 0 (by omega)
  simpa [List.enum] using h

theorem zrem_map_snd (cb : Int) (z : Redis.ZSet) (h0 : ∀ q ∈ z, 0 ≤ q.2) :
    (Redis.zremrangebyscore 0 cb z).map Prod.snd
      = (z.map Prod.snd).filter (fun x => decide (cb < x)) := by
  unfold Redis.zremrangebyscore
  rw [List.filter_map]
  refine congrArg (List.map Prod.snd) (List.filter_congr ?_)
  intro q hq
  have hq0 : 0 ≤ q.2 := h0 q hq
  show (!(decide ((0 : Int) ≤ q.2) && decide (q.2 ≤ cb))) = decide (cb < q.2)
  by_cases h : cb < q.2
  · have hle : ¬(q.2 ≤ cb) := by omega
    simp [h, hle]
  · have hle : q.2 ≤ cb := by omega
    simp [h, hq0, hle]

theorem all_eq_concat {α : Type} {a : α} :
    ∀ {l : List α}, (∀ x ∈ l, x = a) → a :: l = l ++ [a] := by
  intro l
  induction l with
  | nil => intro _; rfl
  | cons b rest IH =>
    intro h
    have hb : b = a := h b (by simp)
    subst hb
    exact congrArg (b :: ·) (IH fun x hx => h x (List.mem_cons_of_mem _ hx))

theorem zadd_map_snd (m : Nat) (t : Int) :
    ∀ z : Redis.ZSet, (z.map Prod.snd).Pairwise (· ≤ ·) →
      (∀ q ∈ z, q.2 ≤ t) →
      (Redis.zadd m t z).map Prod.snd = z.map Prod.snd ++ [t] := by
  intro z
  induction z with
  | nil => intro _ _; rfl
  | cons q rest IH =>
    intro hpw hle
    simp only [Redis.zadd]
    by_cases h : t ≤ q.2
    · rw [if_pos h]
      have hq : q.2 = t := le_antisymm (hle q (by simp)) h
      simp only [List.map_cons]
      refine all_eq_concat ?_
      intro x hx
      rcases List.mem_cons.mp hx with rfl | hx
      · exact hq
      · obtain ⟨p, hp, rfl⟩ := List.mem_map.mp hx
        have h1 : q.2 ≤ p.2 :=
          (List.pairwise_cons.mp (by simpa using hpw)).1 p.2 (List.mem_map_of_mem _ hp)
        have h2 : p.2 ≤ t := hle p (List.mem_cons_of_mem _ hp)
        omega
    · rw [if_neg h]
      have hpw2 : (rest.map Prod.snd).Pairwise (· ≤ ·) :=
        (List.pairwise_cons.mp (by simpa using hpw)).2
      have hle2 : ∀ p ∈ rest, p.2 ≤ t := fun p hp => hle p (List.mem_cons_of_mem _ hp)
      simp only [List.map_cons, IH hpw2 hle2]
      rfl

theorem mem_getTimestamps_bounds (cfg : Config) (s : List Int) (now : Int)
    (b : Bool) (h0 : ∀ x ∈ s, 0 ≤ x) (hle : ∀ x ∈ s, x ≤ now) (hnow : 0 ≤ now) :
    ∀ x ∈ InMemory.getTimestamps cfg s now b, 0 ≤ x ∧ x ≤ now := by
  cases b
  · rw [getTimestamps_false]
    intro x hx
    have hxs := List.mem_of_mem_filter hx
    exact ⟨h0 x hxs, hle x hxs⟩
  · rw [getTimestamps_true]
    intro x hx
    rcases List.mem_append.mp hx with hx | hx
    · have hxs := List.mem_of_mem_filter hx
      exact ⟨h0 x hxs, hle x hxs⟩
    · rcases List.mem_singleton.mp hx with rfl
      exact ⟨hnow, le_rfl⟩

theorem getTimestamps_sorted (cfg : Config) (s : List Int) (now : Int) (b : Bool)
    (hsort : s.Pairwise (· ≤ ·)) (hle : ∀ x ∈ s, x ≤ now) :
    (InMemory.getTimestamps cfg s now b).Pairwise (· ≤ ·) := by
  cases b
  · rw [getTimestamps_false]
    exact hsort.filter _
  · rw [getTimestamps_true, List.pairwise_append]
    refine ⟨hsort.filter _, List.pairwise_singleton _ _, ?_⟩
    intro x hx y hy
    rcases List.mem_singleton.mp hy with rfl
    exact hle x (List.mem_of_mem_filter hx)

/-- Both getTimestamps implementations read and persist the same
    surviving-timestamp list from related states. -/
theorem getTimestamps_equiv (cfg : Config) (s : List Int) (z : Redis.ZSet)
    (now : Int) (b : Bool) (m : Nat)
    (hsz : s = z.map Prod.snd) (hsort : s.Pairwise (· ≤ ·))
    (h0 : ∀ x ∈ s, 0 ≤ x) (hle : ∀ x ∈ s, x ≤ now) :
    (Redis.getTimestamps cfg z now b m).1 = InMemory.getTimestamps cfg s now b
    ∧ (Redis.getTimestamps cfg z now b m).2.map Prod.snd
        = InMemory.getTimestamps cfg s now b := by
  subst hsz
  have h0' : ∀ q ∈ z, 0 ≤ q.2 := fun q hq => h0 q.2 (List.mem_map_of_mem _ hq)
  have hle' : ∀ q ∈ z, q.2 ≤ now := fun q hq => hle q.2 (List.mem_map_of_mem _ hq)
  have hzrem : (Redis.zremrangebyscore 0 (now - cfg.interval) z).map Prod.snd
      = (z.map Prod.snd).filter (fun x => decide (now - cfg.interval < x)) :=
    zrem_map_snd _ z h0'
  have hsnd : (Redis.getTimestamps cfg z now b m).2.map Prod.snd
      = InMemory.getTimestamps cfg (z.map Prod.snd) now b := by
    cases b
    · rw [redis_getTimestamps_snd_false, hzrem, getTimestamps_false]
    · rw [redis_getTimestamps_snd_true, getTimestamps_true]
      have hsort1 : ((Redis.zremrangebyscore 0 (now - cfg.interval) z).map
          Prod.snd).Pairwise (· ≤ ·) := by
        rw [hzrem]
        exact hsort.filter _
      have hle1 : ∀ q ∈ Redis.zremrangebyscore 0 (now - cfg.interval) z,
          q.2 ≤ now := fun q hq => hle' q (List.mem_of_mem_filter hq)
      rw [zadd_map_snd m now _ hsort1 hle1, hzrem]
  exact ⟨by rw [redis_getTimestamps_fst, extract_zrange, hsnd], hsnd⟩

/-- One public call returns the same observable outcome on both
    backends and keeps the two states related. -/
theorem call_equiv (cfg : Config) (s : List Int) (z : Redis.ZSet) (op : Op)
    (t : Int) (m : Nat)
    (hsz : s = z.map Prod.snd) (hsort : s.Pairwise (· ≤ ·))
    (h0 : ∀ x ∈ s, 0 ≤ x) (hle : ∀ x ∈ s, x ≤ t) (ht : 0 ≤ t) :
    (InMemory.call cfg s op t).1 = (Redis.call cfg z op t m).1
    ∧ (InMemory.call cfg s op t).2 = (Redis.call cfg z op t m).2.map Prod.snd
    ∧ (InMemory.call cfg s op t).2.Pairwise (· ≤ ·)
    ∧ (∀ x ∈ (InMemory.call cfg s op t).2, 0 ≤ x ∧ x ≤ t) := by
  obtain ⟨ht1, ht2⟩ := getTimestamps_equiv cfg s z t true m hsz hsort h0 hle
  obtain ⟨hf1, hf2⟩ := getTimestamps_equiv cfg s z t false 0 hsz hsort h0 hle
  have hsortT := getTimestamps_sorted cfg s t true hsort hle
  have hsortF := getTimestamps_sorted cfg s t false hsort hle
  have hbT := mem_getTimestamps_bounds cfg s t true h0 hle ht
  have hbF := mem_getTimestamps_bounds cfg s t false h0 hle ht
  cases op
  case limit =>
    refine ⟨?_, ht2.symm, hsortT, hbT⟩
    show CallResult.verdictBool (calculateInfo cfg (InMemory.getTimestamps cfg s t true) false).blocked
      = CallResult.verdictBool (calculateInfo cfg (Redis.getTimestamps cfg z t true m).1 false).blocked
    rw [ht1]
  case limitWithInfo =>
    refine ⟨?_, ht2.symm, hsortT, hbT⟩
    show CallResult.verdictInfo (calculateInfo cfg (InMemory.getTimestamps cfg s t true) false)
      = CallResult.verdictInfo (calculateInfo cfg (Redis.getTimestamps cfg z t true m).1 false)
    rw [ht1]
  case wouldLimit =>
    refine ⟨?_, hf2.symm, hsortF, hbF⟩
    show CallResult.verdictBool
        (calculateInfo cfg (InMemory.getTimestamps cfg s t false ++ [t]) true).blocked
      = CallResult.verdictBool
        (calculateInfo cfg ((Redis.getTimestamps cfg z t false 0).1 ++ [t]) true).blocked
    rw [hf1]
  case wouldLimitWithInfo =>
    refine ⟨?_, hf2.symm, hsortF, hbF⟩
    show CallResult.verdictInfo
        (calculateInfo cfg (InMemory.getTimestamps cfg s t false ++ [t]) true)
      = CallResult.verdictInfo
        (calculateInfo cfg ((Redis.getTimestamps cfg z t false 0).1 ++ [t]) true)
    rw [hf1]
  case clear =>
    exact ⟨rfl, rfl, List.Pairwise.nil, by intro x hx; cases hx⟩

theorem run_equiv_aux (cfg : Config) :
    ∀ (trace : List (Op × Int)) (s : List Int) (z : Redis.ZSet) (ctr : Nat),
      s = z.map Prod.snd → s.Pairwise (· ≤ ·) → (∀ x ∈ s, 0 ≤ x) →
      (∀ x ∈ s, ∀ p ∈ trace, x ≤ p.2) →
      (trace.map Prod.snd).Pairwise (· ≤ ·) →
      (∀ p ∈ trace, 0 ≤ p.2) →
      InMemory.run cfg trace s = Redis.run cfg trace z ctr := by
  intro trace
  induction trace with
  | nil =>
    intro s z ctr _ _ _ _ _ _
    rfl
  | cons pr rest IH =>
    obtain ⟨op, t⟩ := pr
    intro s z ctr hsz hsort h0 hfut hpw hpos
    have hle : ∀ x ∈ s, x ≤ t := fun x hx => hfut x hx (op, t) (by simp)
    have ht : 0 ≤ t := hpos (op, t) (by simp)
    obtain ⟨hr1, hr2, hr3, hr4⟩ := call_equiv cfg s z op t ctr hsz hsort h0 hle ht
    have hpw2 := hpw
    rw [List.map_cons] at hpw2
    have hcons := List.pairwise_cons.mp hpw2
    have hrestLe : ∀ p ∈ rest, t ≤ p.2 := fun p hp =>
      hcons.1 p.2 (List.mem_map_of_mem _ hp)
    simp only [InMemory.run, Redis.run]
    rw [hr1]
    refine congrArg _ ?_
    refine IH _ _ (ctr + 1) hr2 hr3 (fun x hx => (hr4 x hx).1) ?_ ?_ ?_
    · intro x hx p hp
      exact le_trans (hr4 x hx).2 (hrestLe p hp)
    · exact hcons.2
    · exact fun p hp => hpos p (List.mem_cons_of_mem _ hp)

/-- C6.  For every sequence of public calls at nondecreasing,
    nonnegative clock readings and identical configuration, the
    in-memory backend and the Redis backend produce identical outcome
    sequences from empty initial state: the two getTimestamps
    implementations keep yielding the same surviving-timestamp list. -/
theorem backend_equivalence (cfg : Config) (trace : List (Op × Int))
    (hpw : (trace.map Prod.snd).Pairwise (· ≤ ·))
    (hpos : ∀ p ∈ trace, 0 ≤ p.2) :
    InMemory.run cfg trace [] = Redis.run cfg trace [] 0 :=
  run_equiv_aux cfg trace [] [] 0 rfl List.Pairwise.nil
    (by intro x hx; cases hx) (by intro x hx; cases hx) hpw hpos

/-- C6 witness: a five-call trace exercising every operation. -/
theorem backend_equivalence_witness :
    InMemory.run ⟨10000, 2, 0⟩
        [(Op.limit, 0), (Op.wouldLimit, 1000), (Op.limitWithInfo, 2000),
          (Op.clear, 3000), (Op.wouldLimitWithInfo, 4000)] []
      = Redis.run ⟨10000, 2, 0⟩
        [(Op.limit, 0), (Op.wouldLimit, 1000), (Op.limitWithInfo, 2000),
          (Op.clear, 3000), (Op.wouldLimitWithInfo, 4000)] [] 0 :=
  backend_equivalence ⟨10000, 2, 0⟩ _ (by decide) (by decide)

end RollingRateLimiter
